import Mathlib

/-!
Shallow embedding of the iPhone local-backup core (media inventory and
resilient transfer engine) and proofs of its specification's testable
properties.

Source files embedded:
* `src/backend/models.py` — `Photo`, `MonthStats`, `YearStats`,
  `TransferStatus`, `TransferProgress` and its percentage properties;
* `src/backend/photo_analyzer.py` — `PhotoAnalyzer._create_photo_from_stat`,
  the year/month aggregation of `analyze_photos`, `get_selected_photos`;
* `src/frontend/components/photo_tree.py` — `_toggle_year`, `_toggle_month`;
* `src/backend/photo_transfer.py` — `_transfer_worker`, `_transfer_photos`,
  `_transfer_single_photo`, `_delete_photo`, `_verify_and_reconnect`;
* `src/core/config.py` — the `AppConfig` constants used by the above.

External effects (AFC pulls and deletes, the cancellation flag, connection
checks) are modelled by an environment of boolean oracles indexed by the
position at which the code performs the corresponding call.
-/

namespace LocalBackup

/-- `models.TransferStatus`: status of a photo transfer operation. -/
inductive TransferStatus where
  | pending
  | in_progress
  | completed
  | failed
  | cancelled
deriving DecidableEq, Repr

/-- `models.Photo`: a single media file on the device.  `created_date` is a
required field of the dataclass (an asset without a creation timestamp is
never constructed, see `create_photo_from_stat`); it is modelled as the raw
`st_birthtime` timestamp.  `modified_date` is optional. -/
structure Photo where
  filename : String
  path : String
  size : Nat
  created_date : Int
  modified_date : Option Int := none
deriving DecidableEq, Repr

/-- `models.MonthStats`: statistics for the photos of one (year, month). -/
structure MonthStats where
  year : Int
  month : Int
  photo_count : Nat := 0
  total_size : Nat := 0
  photos : List Photo := []
  selected : Bool := false
deriving DecidableEq, Repr

/-- `models.YearStats`: statistics for the photos of one year; `months` is
the `dict[int, MonthStats]` in its insertion order. -/
structure YearStats where
  year : Int
  photo_count : Nat := 0
  total_size : Nat := 0
  months : List MonthStats := []
  selected : Bool := false
deriving DecidableEq, Repr

/-- `models.TransferProgress`: progress information for transfer
operations. -/
structure TransferProgress where
  total_files : Nat
  completed_files : Nat
  failed_files : Nat
  total_size : Nat
  transferred_size : Nat
  current_file : Option String := none
  status : TransferStatus := .pending
  error_message : Option String := none
deriving DecidableEq, Repr

/-- `TransferProgress.progress_percent`: `0.0` when `total_files == 0`,
otherwise `(completed_files / total_files) * 100` (exact rational in place
of the Python float). -/
def progress_percent (p : TransferProgress) : Rat :=
  if p.total_files = 0 then 0
  else ((p.completed_files : Rat) / (p.total_files : Rat)) * 100

/-- `TransferProgress.size_progress_percent`: `0.0` when `total_size == 0`,
otherwise `(transferred_size / total_size) * 100`. -/
def size_progress_percent (p : TransferProgress) : Rat :=
  if p.total_size = 0 then 0
  else ((p.transferred_size : Rat) / (p.total_size : Rat)) * 100

/-! ## Analyzer: `photo_analyzer.py` -/

/-- One stat record returned by `afc.stat` for a retained media file:
the fields `_create_photo_from_stat` reads (`st_size`, `st_birthtime`,
`st_mtime`), together with the file's device path. -/
structure AfcEntry where
  path : String
  st_size : Option Nat := none
  st_birthtime : Option Int := none
  st_mtime : Option Int := none
deriving DecidableEq, Repr

/-- `Path(path).name`: the final component of a POSIX path. -/
def path_basename (p : String) : String :=
  ((p.splitOn "/").getLast?).getD p

/-- `PhotoAnalyzer._create_photo_from_stat`: size defaults to `0` when
`st_size` is missing; a file whose stat lacks `st_birthtime` is skipped
(`None` is returned) — only files with an authoritative creation date
participate in grouping. -/
def create_photo_from_stat (e : AfcEntry) : Option Photo :=
  match e.st_birthtime with
  | none => none
  | some created =>
      some { filename := path_basename e.path
             path := e.path
             size := e.st_size.getD 0
             created_date := created
             modified_date := e.st_mtime }

/-- The per-file loop of `_scan_directory_recursive` restricted to the stat
records of retained media files: each record either yields a `Photo` or is
skipped, in which case `_create_photo_from_stat` emits one debug log line
("Skipping <path>: no creation date available").  Returns the discovered
photos and the skip-log lines, both in scan order. -/
def build_photos : List AfcEntry → List Photo × List String
  | [] => ([], [])
  | e :: rest =>
      let r := build_photos rest
      match create_photo_from_stat e with
      | some p => (p :: r.1, r.2)
      | none => (r.1, ("Skipping " ++ e.path ++ ": no creation date available") :: r.2)

/-- First-occurrence deduplication: the distinct keys of a list in the
order of their first appearance — exactly the key order of a Python
`dict`/`defaultdict` filled by iterating the list. -/
def dedup_first {α : Type} [DecidableEq α] : List α → List α
  | [] => []
  | k :: rest => k :: (dedup_first rest).filter (fun a => a ≠ k)

/-- `Photo.year`: in the source, `datetime.fromtimestamp(created_date).year`.
The calendar conversion (which depends on the host timezone) is abstracted
as an explicit parameter `yearOf`. -/
def photo_year (yearOf : Int → Int) (p : Photo) : Int :=
  yearOf p.created_date

/-- `Photo.month`: `datetime.fromtimestamp(created_date).month`, with the
calendar conversion abstracted as `monthOf`. -/
def photo_month (monthOf : Int → Int) (p : Photo) : Int :=
  monthOf p.created_date

/-- The aggregation loop of `PhotoAnalyzer.analyze_photos`: photos are
grouped into `photos_by_year_month[year][month]` (insertion-ordered nested
dicts, modelled by `dedup_first` plus `filter`), then a `MonthStats` is
built per (year, month) and a `YearStats` per year; `YearStats.add_month`
accumulates `photo_count` and `total_size` over the months. -/
def analyze_photos (yearOf monthOf : Int → Int) (photos : List Photo) : List YearStats :=
  (dedup_first (photos.map (photo_year yearOf))).map (fun y =>
    let yps := photos.filter (fun p => photo_year yearOf p = y)
    let months := (dedup_first (yps.map (photo_month monthOf))).map (fun m =>
      let mps := yps.filter (fun p => photo_month monthOf p = m)
      { year := y
        month := m
        photo_count := mps.length
        total_size := (mps.map (·.size)).sum
        photos := mps
        selected := false : MonthStats })
    { year := y
      photo_count := (months.map (·.photo_count)).sum
      total_size := (months.map (·.total_size)).sum
      months := months
      selected := false })

/-- `PhotoAnalyzer.get_selected_photos`: for every year, all of its months'
photos when the year is selected, otherwise only the photos of its
individually selected months. -/
def get_selected_photos (year_stats : List YearStats) : List Photo :=
  year_stats.flatMap (fun ys =>
    if ys.selected then ys.months.flatMap (·.photos)
    else (ys.months.filter (·.selected)).flatMap (·.photos))

/-! ## Tree view selection: `photo_tree.py` -/

/-- `PhotoTreeView._toggle_year` restricted to its effect on the stats:
flip the year's `selected` flag and propagate the new value to every
contained month unconditionally. -/
def toggle_year (ys : YearStats) : YearStats :=
  let v := !ys.selected
  { ys with
    selected := v
    months := ys.months.map (fun ms => { ms with selected := v }) }

/-- `PhotoTreeView._toggle_month` restricted to its effect on the stats:
flip the selected month's flag, then recompute the year's flag as
`all(m.selected for m in year_stat.months.values())` (the code path where
the year's tree item exists, which holds for every loaded year). -/
def toggle_month (ys : YearStats) (m : Int) : YearStats :=
  let months := ys.months.map (fun ms =>
    if ms.month = m then { ms with selected := !ms.selected } else ms)
  { ys with
    months := months
    selected := months.all (·.selected) }

/-! ## Transfer engine: `photo_transfer.py` -/

/-- `AppConfig.RECONNECT_ATTEMPTS`. -/
def RECONNECT_ATTEMPTS : Nat := 3

/-- `AppConfig.BATCH_SIZE` (the default batch size). -/
def BATCH_SIZE : Nat := 10

/-- Environment of external outcomes observed by one transfer task:
`pullOk i` — whether `afc.pull` succeeds for the photo at index `i`
(`_transfer_single_photo` returns this boolean, absorbing exceptions);
`deleteOk i` — whether `afc.rm` succeeds for the photo at index `i`
(`_delete_photo` returns this boolean, absorbing exceptions);
`cancelFlag i` — the value of `self._is_cancelled` at the `i`-th top-of-loop
poll; index `photos.length` models the worker's final read after the loop;
`verifyOk b` — `device_manager.verify_connection()` at the `b`-th batch
boundary; `reconnectOk b a` — `device_manager.is_connected()` at boundary
`b`, reconnection attempt `a`. -/
structure TransferEnv where
  pullOk : Nat → Bool
  deleteOk : Nat → Bool
  cancelFlag : Nat → Bool
  verifyOk : Nat → Bool
  reconnectOk : Nat → Nat → Bool

/-- The reconnection loop of `_verify_and_reconnect`: up to `remaining`
rounds of sleep-then-`is_connected`, returning true on the first success
and false after exhausting the attempts. -/
def reconnect_attempts (connected : Nat → Bool) : Nat → Nat → Bool
  | _, 0 => false
  | attempt, remaining + 1 =>
      if connected attempt then true
      else reconnect_attempts connected (attempt + 1) remaining

/-- `PhotoTransferManager._verify_and_reconnect` at batch boundary `b`:
true when the connection verifies, otherwise the bounded reconnection loop
(`RECONNECT_ATTEMPTS` rounds). -/
def verify_and_reconnect (env : TransferEnv) (b : Nat) : Bool :=
  if env.verifyOk b then true
  else reconnect_attempts (env.reconnectOk b) 0 RECONNECT_ATTEMPTS

/-- The mutable state of one running transfer task: `progress` is
`self._current_progress`; `failed_photos` is the `failed_photos` list of
`_transfer_photos`; `local_photos` records the photos successfully written
to local storage by `afc.pull` (nothing in the engine ever removes a local
file); `deleted_src` records the device paths removed by `afc.rm`. -/
structure RunState where
  progress : TransferProgress
  failed_photos : List Photo := []
  local_photos : List Photo := []
  deleted_src : List String := []
deriving DecidableEq, Repr

/-- The per-photo body of `_transfer_photos` for the photo at index `idx`:
set `current_file`; on pull success increment `completed_files`, add the
photo's size to `transferred_size`, and — only then and only if
`delete_after_transfer` — attempt the source delete (`_delete_photo`
absorbs its own failure, so a failed delete changes nothing else); on pull
failure increment `failed_files` and record the photo. -/
def step_photo (env : TransferEnv) (del : Bool) (idx : Nat) (p : Photo) (st : RunState) :
    RunState :=
  let pr0 := { st.progress with current_file := some p.filename }
  if env.pullOk idx then
    { st with
      progress := { pr0 with
        completed_files := pr0.completed_files + 1
        transferred_size := pr0.transferred_size + p.size }
      local_photos := st.local_photos ++ [p]
      deleted_src :=
        if del && env.deleteOk idx then st.deleted_src ++ [p.path] else st.deleted_src }
  else
    { st with
      progress := { pr0 with failed_files := pr0.failed_files + 1 }
      failed_photos := st.failed_photos ++ [p] }

/-- The loop of `PhotoTransferManager._transfer_photos`: `idx` is the index
of the next photo (and of its cancellation poll), `bc` is `batch_count`,
`bd` counts the batch-boundary health checks already performed.  Per
iteration: poll the cancellation flag and break when set; when
`batch_count >= batch_size`, run `_verify_and_reconnect` and abort the task
(`RuntimeError`, the `some`-message result) when it fails, else reset
`batch_count`; then process the photo and continue.  A normal or
cancelled exit returns `none` as second component. -/
def transfer_photos (env : TransferEnv) (del : Bool) (bs : Nat) :
    List Photo → Nat → Nat → Nat → RunState → RunState × Option String
  | [], _, _, _, st => (st, none)
  | p :: rest, idx, bc, bd, st =>
      if env.cancelFlag idx then (st, none)
      else if bs ≤ bc then
        if verify_and_reconnect env bd then
          transfer_photos env del bs rest (idx + 1) 1 (bd + 1) (step_photo env del idx p st)
        else (st, some "Device disconnected and could not reconnect")
      else
        transfer_photos env del bs rest (idx + 1) (bc + 1) bd (step_photo env del idx p st)

/-- The initial `TransferProgress` (wrapped in a fresh `RunState`) built at
the top of `_transfer_worker`. -/
def init_state (photos : List Photo) : RunState :=
  { progress :=
      { total_files := photos.length
        completed_files := 0
        failed_files := 0
        total_size := (photos.map (·.size)).sum
        transferred_size := 0
        current_file := none
        status := .in_progress
        error_message := none } }

/-- The terminal-status assignment of `_transfer_worker`: `failed` with the
error detail when `_transfer_photos` raised, else `cancelled` when the
cancellation flag (read after the loop, modelled at poll index `n`) is
set, else `completed`. -/
def apply_terminal (env : TransferEnv) (n : Nat) (r : RunState × Option String) : RunState :=
  match r with
  | (st, some e) =>
      { st with progress := { st.progress with status := .failed, error_message := some e } }
  | (st, none) =>
      if env.cancelFlag n then
        { st with progress := { st.progress with status := .cancelled } }
      else
        { st with progress := { st.progress with status := .completed } }

/-- `PhotoTransferManager._transfer_worker`: initialise the progress from
the photo list, run `_transfer_photos`, then set the terminal status. -/
def transfer_worker (env : TransferEnv) (photos : List Photo) (del : Bool) (bs : Nat) :
    RunState :=
  apply_terminal env photos.length (transfer_photos env del bs photos 0 0 0 (init_state photos))

/-- Specification helper: the sublist of `ps` (starting at absolute index
`idx`) whose pulls succeed in `env`. -/
def succeeded (env : TransferEnv) : List Photo → Nat → List Photo
  | [], _ => []
  | p :: rest, idx =>
      if env.pullOk idx then p :: succeeded env rest (idx + 1)
      else succeeded env rest (idx + 1)

/-- Specification helper: the loop body applied to every photo in order
(the behaviour of `_transfer_photos` when nothing interrupts it). -/
def run_steps (env : TransferEnv) (del : Bool) : List Photo → Nat → RunState → RunState
  | [], _, st => st
  | p :: rest, idx, st => run_steps env del rest (idx + 1) (step_photo env del idx p st)

/-! ## Concrete inputs used by witnesses and counterexamples -/

/-- A concrete photo. -/
def wphoto_a : Photo :=
  { filename := "IMG_0001.JPG", path := "/DCIM/100APPLE/IMG_0001.JPG"
    size := 5, created_date := 100 }

/-- A concrete photo. -/
def wphoto_b : Photo :=
  { filename := "IMG_0002.JPG", path := "/DCIM/100APPLE/IMG_0002.JPG"
    size := 7, created_date := 130 }

/-- A concrete photo. -/
def wphoto_c : Photo :=
  { filename := "IMG_0003.MOV", path := "/DCIM/100APPLE/IMG_0003.MOV"
    size := 11, created_date := 260 }

/-- A concrete photo list for transfer scenarios. -/
def wphotos : List Photo := [wphoto_a, wphoto_b, wphoto_c]

/-- A selected month holding one photo. -/
def wmonth_sel : MonthStats :=
  { year := 2023, month := 1, photo_count := 1, total_size := 5
    photos := [wphoto_a], selected := true }

/-- A deselected month holding one photo. -/
def wmonth_unsel : MonthStats :=
  { year := 2023, month := 2, photo_count := 1, total_size := 7
    photos := [wphoto_b], selected := false }

/-- A year whose months are uniformly selected while the year flag is
clear. -/
def c8year : YearStats :=
  { year := 2023, photo_count := 1, total_size := 5
    months := [wmonth_sel], selected := false }

/-- A year whose months are uniformly selected and whose flag is set. -/
def c8year_uniform : YearStats :=
  { year := 2023, photo_count := 1, total_size := 5
    months := [wmonth_sel], selected := true }

/-- A year holding one selected and one deselected month. -/
def c7year : YearStats :=
  { year := 2023, photo_count := 2, total_size := 12
    months := [wmonth_sel, wmonth_unsel], selected := false }

/-- A year with all months selected and the year flag clear. -/
def c6year : YearStats :=
  { year := 2023, photo_count := 1, total_size := 5
    months := [wmonth_sel], selected := false }

/-- An empty transfer's progress. -/
def c9empty : TransferProgress :=
  { total_files := 0, completed_files := 0, failed_files := 0
    total_size := 0, transferred_size := 0 }

/-- A quarter-done transfer's progress. -/
def c9quarter : TransferProgress :=
  { total_files := 4, completed_files := 1, failed_files := 0
    total_size := 8, transferred_size := 2 }

/-- Environment where only the pull of the photo at index 1 fails. -/
def c2env : TransferEnv :=
  { pullOk := fun i => decide (i ≠ 1)
    deleteOk := fun _ => true
    cancelFlag := fun _ => false
    verifyOk := fun _ => true
    reconnectOk := fun _ _ => false }

/-- Environment where every pull succeeds and every source delete fails. -/
def c3env : TransferEnv :=
  { pullOk := fun _ => true
    deleteOk := fun _ => false
    cancelFlag := fun _ => false
    verifyOk := fun _ => true
    reconnectOk := fun _ _ => false }

/-- Environment where the connection check and every reconnection attempt
fail. -/
def c4env : TransferEnv :=
  { pullOk := fun _ => true
    deleteOk := fun _ => true
    cancelFlag := fun _ => false
    verifyOk := fun _ => false
    reconnectOk := fun _ _ => false }

/-- Environment where the cancellation flag is set from poll 2 on. -/
def c5env : TransferEnv :=
  { pullOk := fun _ => true
    deleteOk := fun _ => true
    cancelFlag := fun i => decide (2 ≤ i)
    verifyOk := fun _ => true
    reconnectOk := fun _ _ => false }

/-- Concrete stat records: the first lacks a creation timestamp. -/
def c1entries : List AfcEntry :=
  [{ path := "/DCIM/100APPLE/IMG_0000.JPG", st_size := some 9 },
   { path := "/DCIM/100APPLE/IMG_0001.JPG", st_size := some 3, st_birthtime := some 100 },
   { path := "/DCIM/100APPLE/IMG_0003.MOV", st_size := some 4, st_birthtime := some 260 }]

/-- A concrete calendar-year extraction for witnesses. -/
def c1yearOf : Int → Int := fun t => t / 100

/-- A concrete calendar-month extraction for witnesses. -/
def c1monthOf : Int → Int := fun t => t % 100

/-! ## Helper lemmas -/

/-- Mapping a constant `selected` value over months is the identity exactly
when every month already carries that value. -/
theorem map_set_selected_eq_iff (l : List MonthStats) (v : Bool) :
    l.map (fun ms => { ms with selected := v }) = l ↔ ∀ ms ∈ l, ms.selected = v := by
  induction l with
  | nil => simp
  | cons h t ih =>
    simp only [List.map_cons, List.cons.injEq, List.mem_cons]
    constructor
    · rintro ⟨hh, ht⟩
      have hsel : h.selected = v := (congrArg MonthStats.selected hh).symm
      intro ms hms
      rcases hms with rfl | hms
      · exact hsel
      · exact ih.mp ht ms hms
    · intro hall
      have hh : h.selected = v := hall h (Or.inl rfl)
      constructor
      · rw [← hh]
      · exact ih.mpr (fun ms hms => hall ms (Or.inr hms))

/-- Splitting a sum over a list by a boolean predicate. -/
theorem sum_map_filter_partition {α : Type} (p : α → Bool) (f : α → Nat) (l : List α) :
    ((l.filter p).map f).sum + ((l.filter (fun x => !p x)).map f).sum = (l.map f).sum := by
  induction l with
  | nil => simp
  | cons x t ih =>
    cases hx : p x <;> simp [List.filter_cons, hx, ← ih] <;> omega

/-- `dedup_first` preserves membership. -/
theorem dedup_first_mem {α : Type} [DecidableEq α] (a : α) (l : List α) :
    a ∈ dedup_first l ↔ a ∈ l := by
  induction l with
  | nil => simp [dedup_first]
  | cons k t ih =>
    simp only [dedup_first, List.mem_cons, List.mem_filter]
    constructor
    · rintro (rfl | ⟨ha, _⟩)
      · exact Or.inl rfl
      · exact Or.inr (ih.mp ha)
    · rintro (rfl | ha)
      · exact Or.inl rfl
      · by_cases hk : a = k
        · exact Or.inl hk
        · exact Or.inr ⟨ih.mpr ha, by simpa using hk⟩

/-- `dedup_first` has no duplicates. -/
theorem dedup_first_nodup {α : Type} [DecidableEq α] (l : List α) :
    (dedup_first l).Nodup := by
  induction l with
  | nil => simp [dedup_first]
  | cons k t ih =>
    simp only [dedup_first, List.nodup_cons]
    refine ⟨fun hk => ?_, List.Nodup.filter _ ih⟩
    have := (List.mem_filter.mp hk).2
    simp at this

/-- Summing the group sums over a duplicate-free, covering key list gives
the total sum. -/
theorem sum_over_keys {α κ : Type} [DecidableEq κ] (key : α → κ) (f : α → Nat) :
    ∀ (ks : List κ) (l : List α), ks.Nodup → (∀ x ∈ l, key x ∈ ks) →
      (ks.map (fun k => ((l.filter (fun x => key x = k)).map f).sum)).sum = (l.map f).sum := by
  intro ks
  induction ks with
  | nil =>
    intro l _ hcov
    cases l with
    | nil => simp
    | cons x t => exact absurd (hcov x (List.mem_cons_self x t)) (List.not_mem_nil (key x))
  | cons k ks ih =>
    intro l hnd hcov
    obtain ⟨hk_not, hnd'⟩ := List.nodup_cons.mp hnd
    simp only [List.map_cons, List.sum_cons]
    have htail : ∀ k' ∈ ks,
        l.filter (fun x => key x = k') =
          (l.filter (fun x => !(decide (key x = k)))).filter (fun x => key x = k') := by
      intro k' hk'
      rw [List.filter_filter]
      apply List.filter_congr
      intro x _
      by_cases hx : key x = k'
      · have hne : k' ≠ k := fun h => hk_not (h ▸ hk')
        have hne' : key x ≠ k := fun h => hne (by rw [← hx, h])
        simp [hx, hne, hne']
      · simp [hx]
    have hmap : (ks.map (fun k' => ((l.filter (fun x => key x = k')).map f).sum)) =
        (ks.map (fun k' =>
          (((l.filter (fun x => !(decide (key x = k)))).filter (fun x => key x = k')).map f).sum)) :=
      List.map_congr_left (fun k' hk' => by rw [htail k' hk'])
    rw [hmap, ih (l.filter (fun x => !(decide (key x = k)))) hnd' ?_]
    · exact sum_map_filter_partition (fun x => decide (key x = k)) f l
    · intro x hx
      obtain ⟨hxl, hxk⟩ := List.mem_filter.mp hx
      have : key x ≠ k := by simpa using hxk
      have := hcov x hxl
      simp only [List.mem_cons] at this
      exact this.resolve_left ‹key x ≠ k›

/-- Grouping a list by its first-occurrence keys and summing each group
gives the total sum. -/
theorem sum_over_dedup_keys {α κ : Type} [DecidableEq κ] (key : α → κ) (f : α → Nat)
    (l : List α) :
    ((dedup_first (l.map key)).map
        (fun k => ((l.filter (fun x => key x = k)).map f).sum)).sum = (l.map f).sum :=
  sum_over_keys key f _ l (dedup_first_nodup _)
    (fun x hx => (dedup_first_mem _ _).mpr (List.mem_map.mpr ⟨x, hx, rfl⟩))

/-- The month buckets of `analyze_photos` partition the photos, so the
bucket totals sum to the total size of the input photos. -/
theorem analyze_total_size (yf mf : Int → Int) (photos : List Photo) :
    ((analyze_photos yf mf photos).map (fun ys => (ys.months.map (·.total_size)).sum)).sum
      = (photos.map (·.size)).sum := by
  unfold analyze_photos
  rw [List.map_map]
  refine Eq.trans ?_ (sum_over_dedup_keys (photo_year yf) (·.size) photos)
  congr 1
  apply List.map_congr_left
  intro y _
  simp only [Function.comp]
  rw [List.map_map]
  exact sum_over_dedup_keys (photo_month mf) (·.size) _

/-- The photos produced by the scan carry exactly the sizes of the entries
with a creation timestamp. -/
theorem build_photos_sizes (entries : List AfcEntry) :
    ((build_photos entries).1.map (·.size)).sum
      = ((entries.filter (fun e => e.st_birthtime.isSome)).map (fun e => e.st_size.getD 0)).sum := by
  induction entries with
  | nil => simp [build_photos]
  | cons e t ih =>
    cases hb : e.st_birthtime with
    | none => simp [build_photos, create_photo_from_stat, hb, List.filter_cons, ih]
    | some c => simp [build_photos, create_photo_from_stat, hb, List.filter_cons, ih]

/-- One skip-log line is emitted per entry without a creation timestamp. -/
theorem build_photos_skips (entries : List AfcEntry) :
    (build_photos entries).2.length
      = (entries.filter (fun e => e.st_birthtime.isNone)).length := by
  induction entries with
  | nil => simp [build_photos]
  | cons e t ih =>
    cases hb : e.st_birthtime with
    | none => simp [build_photos, create_photo_from_stat, hb, List.filter_cons, ih]
    | some c => simp [build_photos, create_photo_from_stat, hb, List.filter_cons, ih]

/-- Each processed photo increments exactly one of `completed_files` and
`failed_files`. -/
theorem step_photo_count (env : TransferEnv) (del : Bool) (idx : Nat) (p : Photo)
    (st : RunState) :
    (step_photo env del idx p st).progress.completed_files +
      (step_photo env del idx p st).progress.failed_files
      = st.progress.completed_files + st.progress.failed_files + 1 := by
  unfold step_photo
  split <;> simp <;> omega

/-- `step_photo` does not change `total_files`, `total_size`, `status` or
`error_message`. -/
theorem step_photo_const (env : TransferEnv) (del : Bool) (idx : Nat) (p : Photo)
    (st : RunState) :
    (step_photo env del idx p st).progress.total_files = st.progress.total_files ∧
    (step_photo env del idx p st).progress.total_size = st.progress.total_size ∧
    (step_photo env del idx p st).progress.status = st.progress.status ∧
    (step_photo env del idx p st).progress.error_message = st.progress.error_message := by
  unfold step_photo
  split <;> exact ⟨rfl, rfl, rfl, rfl⟩

/-- The pull-succeeded sublist is never longer than the input. -/
theorem succeeded_length_le (env : TransferEnv) :
    ∀ (ps : List Photo) (idx : Nat), (succeeded env ps idx).length ≤ ps.length := by
  intro ps
  induction ps with
  | nil => intro idx; simp [succeeded]
  | cons p rest ih =>
    intro idx
    unfold succeeded
    split
    · simpa using ih (idx + 1)
    · exact le_trans (ih (idx + 1)) (by simp)

/-- The pull-succeeded photos form a sublist of the input. -/
theorem succeeded_sublist (env : TransferEnv) :
    ∀ (ps : List Photo) (idx : Nat), (succeeded env ps idx).Sublist ps := by
  intro ps
  induction ps with
  | nil => intro idx; simp [succeeded]
  | cons p rest ih =>
    intro idx
    unfold succeeded
    split
    · exact List.Sublist.cons₂ p (ih (idx + 1))
    · exact List.Sublist.cons p (ih (idx + 1))

/-- Running every step adds one completed file per successful pull. -/
theorem run_steps_completed (env : TransferEnv) (del : Bool) :
    ∀ (ps : List Photo) (idx : Nat) (st : RunState),
      (run_steps env del ps idx st).progress.completed_files
        = st.progress.completed_files + (succeeded env ps idx).length := by
  intro ps
  induction ps with
  | nil => intro idx st; simp [run_steps, succeeded]
  | cons p rest ih =>
    intro idx st
    simp only [run_steps, succeeded]
    rw [ih]
    cases h : env.pullOk idx <;> simp [step_photo, h] <;> omega

/-- Running every step adds one failed file per failed pull. -/
theorem run_steps_failed (env : TransferEnv) (del : Bool) :
    ∀ (ps : List Photo) (idx : Nat) (st : RunState),
      (run_steps env del ps idx st).progress.failed_files
        = st.progress.failed_files + (ps.length - (succeeded env ps idx).length) := by
  intro ps
  induction ps with
  | nil => intro idx st; simp [run_steps, succeeded]
  | cons p rest ih =>
    intro idx st
    have hle := succeeded_length_le env rest (idx + 1)
    simp only [run_steps, succeeded]
    rw [ih]
    cases h : env.pullOk idx <;> simp [step_photo, h] <;> omega

/-- Running every step adds the size of each successfully pulled photo to
`transferred_size`. -/
theorem run_steps_transferred (env : TransferEnv) (del : Bool) :
    ∀ (ps : List Photo) (idx : Nat) (st : RunState),
      (run_steps env del ps idx st).progress.transferred_size
        = st.progress.transferred_size + ((succeeded env ps idx).map (·.size)).sum := by
  intro ps
  induction ps with
  | nil => intro idx st; simp [run_steps, succeeded]
  | cons p rest ih =>
    intro idx st
    simp only [run_steps, succeeded]
    rw [ih]
    cases h : env.pullOk idx <;> simp [step_photo, h] <;> omega

/-- Running every step appends exactly the successfully pulled photos to
the local storage record. -/
theorem run_steps_local (env : TransferEnv) (del : Bool) :
    ∀ (ps : List Photo) (idx : Nat) (st : RunState),
      (run_steps env del ps idx st).local_photos
        = st.local_photos ++ succeeded env ps idx := by
  intro ps
  induction ps with
  | nil => intro idx st; simp [run_steps, succeeded]
  | cons p rest ih =>
    intro idx st
    simp only [run_steps, succeeded]
    rw [ih]
    cases h : env.pullOk idx <;> simp [step_photo, h]

/-- Running every step leaves `total_files`, `total_size`, `status` and
`error_message` unchanged. -/
theorem run_steps_const (env : TransferEnv) (del : Bool) :
    ∀ (ps : List Photo) (idx : Nat) (st : RunState),
      (run_steps env del ps idx st).progress.total_files = st.progress.total_files ∧
      (run_steps env del ps idx st).progress.total_size = st.progress.total_size ∧
      (run_steps env del ps idx st).progress.status = st.progress.status ∧
      (run_steps env del ps idx st).progress.error_message = st.progress.error_message := by
  intro ps
  induction ps with
  | nil => intro idx st; simp [run_steps]
  | cons p rest ih =>
    intro idx st
    simp only [run_steps]
    have hstep := step_photo_const env del idx p st
    have hrec := ih (idx + 1) (step_photo env del idx p st)
    exact ⟨hrec.1.trans hstep.1, hrec.2.1.trans hstep.2.1,
      hrec.2.2.1.trans hstep.2.2.1, hrec.2.2.2.trans hstep.2.2.2⟩

/-- When the delete flag is off, no source file is ever removed. -/
theorem run_steps_no_delete (env : TransferEnv) :
    ∀ (ps : List Photo) (idx : Nat) (st : RunState),
      (run_steps env false ps idx st).deleted_src = st.deleted_src := by
  intro ps
  induction ps with
  | nil => intro idx st; simp [run_steps]
  | cons p rest ih =>
    intro idx st
    simp only [run_steps]
    rw [ih]
    cases h : env.pullOk idx <;> simp [step_photo, h]

/-- Every recorded source deletion is the path of a photo whose pull
succeeded. -/
theorem run_steps_deleted_mem (env : TransferEnv) (del : Bool) :
    ∀ (ps : List Photo) (idx : Nat) (st : RunState) (s : String),
      s ∈ (run_steps env del ps idx st).deleted_src →
      s ∈ st.deleted_src ∨ ∃ p ∈ succeeded env ps idx, s = p.path := by
  intro ps
  induction ps with
  | nil => intro idx st s h; exact Or.inl h
  | cons p rest ih =>
    intro idx st s h
    simp only [run_steps] at h
    rcases ih (idx + 1) (step_photo env del idx p st) s h with h' | ⟨q, hq, rfl⟩
    · cases hp : env.pullOk idx
      · simp only [step_photo, hp, Bool.false_eq_true, if_false] at h'
        exact Or.inl h'
      · simp only [step_photo, hp, if_true] at h'
        by_cases hdel : (del && env.deleteOk idx) = true
        · rw [if_pos hdel] at h'
          rcases List.mem_append.mp h' with h'' | h''
          · exact Or.inl h''
          · right
            refine ⟨p, ?_, (List.mem_singleton.mp h'').symm ▸ rfl⟩
            simp [succeeded, hp]
        · rw [if_neg hdel] at h'
          exact Or.inl h'
    · right
      refine ⟨q, ?_, rfl⟩
      cases hp : env.pullOk idx <;> simp [succeeded, hp, hq]

/-- The loop processes every photo when nothing cancels it and every
health check verifies. -/
theorem transfer_photos_run_all (env : TransferEnv) (del : Bool) (bs : Nat)
    (hc : ∀ i, env.cancelFlag i = false) (hv : ∀ b, env.verifyOk b = true) :
    ∀ (ps : List Photo) (idx bc bd : Nat) (st : RunState),
      transfer_photos env del bs ps idx bc bd st = (run_steps env del ps idx st, none) := by
  intro ps
  induction ps with
  | nil => intro idx bc bd st; rfl
  | cons p rest ih =>
    intro idx bc bd st
    simp only [transfer_photos, run_steps, hc idx, Bool.false_eq_true, if_false]
    have hvr : verify_and_reconnect env bd = true := by
      simp [verify_and_reconnect, hv bd]
    by_cases hbc : bs ≤ bc
    · rw [if_pos hbc, hvr]
      simp only [if_true]
      exact ih (idx + 1) 1 (bd + 1) (step_photo env del idx p st)
    · rw [if_neg hbc]
      exact ih (idx + 1) (bc + 1) bd (step_photo env del idx p st)

/-- The loop never raises when every health check verifies. -/
theorem transfer_photos_no_error (env : TransferEnv) (del : Bool) (bs : Nat)
    (hv : ∀ b, env.verifyOk b = true) :
    ∀ (ps : List Photo) (idx bc bd : Nat) (st : RunState),
      (transfer_photos env del bs ps idx bc bd st).2 = none := by
  intro ps
  induction ps with
  | nil => intro idx bc bd st; rfl
  | cons p rest ih =>
    intro idx bc bd st
    simp only [transfer_photos]
    have hvr : verify_and_reconnect env bd = true := by
      simp [verify_and_reconnect, hv bd]
    cases hcc : env.cancelFlag idx
    · simp only [Bool.false_eq_true, if_false]
      by_cases hbc : bs ≤ bc
      · rw [if_pos hbc, hvr]
        simp only [if_true]
        exact ih (idx + 1) 1 (bd + 1) (step_photo env del idx p st)
      · rw [if_neg hbc]
        exact ih (idx + 1) (bc + 1) bd (step_photo env del idx p st)
    · simp

/-- Once the (monotone) cancellation flag is set at poll `j`, the loop
attempts at most `j - idx` further photos. -/
theorem transfer_photos_count_le (env : TransferEnv) (del : Bool) (bs : Nat)
    (hmono : ∀ a b, a ≤ b → env.cancelFlag a = true → env.cancelFlag b = true) :
    ∀ (ps : List Photo) (idx bc bd : Nat) (st : RunState) (j : Nat),
      idx ≤ j → env.cancelFlag j = true →
      (transfer_photos env del bs ps idx bc bd st).1.progress.completed_files +
        (transfer_photos env del bs ps idx bc bd st).1.progress.failed_files
        ≤ st.progress.completed_files + st.progress.failed_files + (j - idx) := by
  intro ps
  induction ps with
  | nil => intro idx bc bd st j _ _; simp [transfer_photos]
  | cons p rest ih =>
    intro idx bc bd st j hij hj
    simp only [transfer_photos]
    cases hcc : env.cancelFlag idx
    · have hlt : idx < j := by
        rcases Nat.lt_or_ge idx j with h | h
        · exact h
        · have : env.cancelFlag idx = true := hmono j idx (le_antisymm hij h ▸ le_refl j) hj
          rw [hcc] at this
          exact absurd this (by simp)
      have hstep := step_photo_count env del idx p st
      simp only [Bool.false_eq_true, if_false]
      by_cases hbc : bs ≤ bc
      · rw [if_pos hbc]
        cases hvr : verify_and_reconnect env bd
        · simp only [Bool.false_eq_true, if_false]
          simp
        · simp only [if_true]
          have := ih (idx + 1) 1 (bd + 1) (step_photo env del idx p st) j hlt hj
          omega
      · rw [if_neg hbc]
        have := ih (idx + 1) (bc + 1) bd (step_photo env del idx p st) j hlt hj
        omega
    · simp

/-- A reconnection loop whose every probe fails returns false. -/
theorem reconnect_attempts_all_false (connected : Nat → Bool)
    (h : ∀ a, connected a = false) :
    ∀ (r s : Nat), reconnect_attempts connected s r = false := by
  intro r
  induction r with
  | zero => intro s; rfl
  | succ r ih =>
    intro s
    simp only [reconnect_attempts, h s, Bool.false_eq_true, if_false]
    exact ih (s + 1)

/-- A failed verification followed by uniformly failing reconnection
probes makes the boundary health check fail. -/
theorem verify_and_reconnect_false (env : TransferEnv) (b : Nat)
    (hv : env.verifyOk b = false) (hr : ∀ a, env.reconnectOk b a = false) :
    verify_and_reconnect env b = false := by
  simp only [verify_and_reconnect, hv, Bool.false_eq_true, if_false]
  exact reconnect_attempts_all_false _ hr RECONNECT_ATTEMPTS 0

/-- When every boundary before `j` verifies and boundary `j`'s check and
recovery fail, the loop aborts exactly at absolute photo index
`(j + 1) * bs`, having processed every earlier photo. -/
theorem transfer_photos_fail_at (env : TransferEnv) (del : Bool) (bs j : Nat)
    (hc : ∀ i, env.cancelFlag i = false)
    (hbs : 0 < bs)
    (hvb : ∀ b, b < j → env.verifyOk b = true)
    (hvj : verify_and_reconnect env j = false) :
    ∀ (ps : List Photo) (idx bc bd : Nat) (st : RunState),
      idx + (bs - bc) = (bd + 1) * bs → bc ≤ bs → bd ≤ j →
      (j + 1) * bs - idx < ps.length →
      transfer_photos env del bs ps idx bc bd st =
        (run_steps env del (ps.take ((j + 1) * bs - idx)) idx st,
         some "Device disconnected and could not reconnect") := by
  intro ps
  induction ps with
  | nil =>
    intro idx bc bd st _ _ _ hlen
    simp at hlen
  | cons p rest ih =>
    intro idx bc bd st hrel hbc_le hbd hlen
    have hA : (bd + 1) * bs ≤ (j + 1) * bs := Nat.mul_le_mul_right bs (by omega)
    have hlen' : (j + 1) * bs - idx < rest.length + 1 := by simpa using hlen
    simp only [transfer_photos, hc idx, Bool.false_eq_true, if_false]
    by_cases hbc : bs ≤ bc
    · have hbceq : bc = bs := le_antisymm hbc_le hbc
      have hidx : idx = (bd + 1) * bs := by omega
      rw [if_pos hbc]
      by_cases hbdj : bd = j
      · have hvjbd : verify_and_reconnect env bd = false := by rw [hbdj]; exact hvj
        rw [hvjbd]
        simp only [Bool.false_eq_true, if_false]
        have hXY : (j + 1) * bs = (bd + 1) * bs := by rw [hbdj]
        have htake : (j + 1) * bs - idx = 0 := by omega
        rw [htake]
        simp [run_steps]
      · have hbdlt : bd < j := lt_of_le_of_ne hbd hbdj
        have hvr : verify_and_reconnect env bd = true := by
          simp [verify_and_reconnect, hvb bd hbdlt]
        rw [hvr]
        simp only [if_true]
        have hC : (bd + 1 + 1) * bs ≤ (j + 1) * bs := Nat.mul_le_mul_right bs (by omega)
        have hexp : (bd + 1 + 1) * bs = (bd + 1) * bs + bs := by ring
        have hgt : idx < (j + 1) * bs := by omega
        have hn : (j + 1) * bs - idx = ((j + 1) * bs - (idx + 1)) + 1 := by omega
        rw [hn, List.take_succ_cons]
        simp only [run_steps]
        refine ih (idx + 1) 1 (bd + 1) (step_photo env del idx p st) ?_ ?_ ?_ ?_
        · omega
        · omega
        · omega
        · omega
    · have hbclt : bc < bs := lt_of_not_ge hbc
      rw [if_neg hbc]
      have hgt : idx < (j + 1) * bs := by omega
      have hn : (j + 1) * bs - idx = ((j + 1) * bs - (idx + 1)) + 1 := by omega
      rw [hn, List.take_succ_cons]
      simp only [run_steps]
      refine ih (idx + 1) (bc + 1) bd (step_photo env del idx p st) ?_ ?_ ?_ ?_
      · omega
      · omega
      · exact hbd
      · omega

/-- Loop invariant: the photos recorded on local storage extend the
initial record by a sublist of the input, carrying exactly the transferred
bytes and the completed-file count. -/
theorem transfer_photos_invariant (env : TransferEnv) (del : Bool) (bs : Nat) :
    ∀ (ps : List Photo) (idx bc bd : Nat) (st : RunState),
      ∃ extra : List Photo,
        (transfer_photos env del bs ps idx bc bd st).1.local_photos
            = st.local_photos ++ extra ∧
        extra.Sublist ps ∧
        (transfer_photos env del bs ps idx bc bd st).1.progress.transferred_size
            = st.progress.transferred_size + (extra.map (·.size)).sum ∧
        (transfer_photos env del bs ps idx bc bd st).1.progress.completed_files
            = st.progress.completed_files + extra.length := by
  intro ps
  induction ps with
  | nil =>
    intro idx bc bd st
    exact ⟨[], by simp [transfer_photos], List.Sublist.refl _, by simp [transfer_photos],
      by simp [transfer_photos]⟩
  | cons p rest ih =>
    intro idx bc bd st
    simp only [transfer_photos]
    cases hcc : env.cancelFlag idx
    · simp only [Bool.false_eq_true, if_false]
      have hcombine : ∀ st' : RunState,
          st' = step_photo env del idx p st →
          ∃ extra : List Photo,
            (transfer_photos env del bs rest (idx + 1) 1 (bd + 1) st').1.local_photos
                = st.local_photos ++ extra ∧
            extra.Sublist (p :: rest) ∧
            (transfer_photos env del bs rest (idx + 1) 1 (bd + 1) st').1.progress.transferred_size
                = st.progress.transferred_size + (extra.map (·.size)).sum ∧
            (transfer_photos env del bs rest (idx + 1) 1 (bd + 1) st').1.progress.completed_files
                = st.progress.completed_files + extra.length := by
        intro st' hst'
        obtain ⟨extra, h1, h2, h3, h4⟩ := ih (idx + 1) 1 (bd + 1) st'
        cases hp : env.pullOk idx
        · refine ⟨extra, ?_, List.Sublist.cons p h2, ?_, ?_⟩
          · rw [h1, hst']
            simp [step_photo, hp]
          · rw [h3, hst']
            simp [step_photo, hp]
          · rw [h4, hst']
            simp [step_photo, hp]
        · refine ⟨p :: extra, ?_, List.Sublist.cons₂ p h2, ?_, ?_⟩
          · rw [h1, hst']
            simp [step_photo, hp]
          · rw [h3, hst']
            simp [step_photo, hp]
            omega
          · rw [h4, hst']
            simp [step_photo, hp]
            omega
      by_cases hbc : bs ≤ bc
      · rw [if_pos hbc]
        cases hvr : verify_and_reconnect env bd
        · simp only [Bool.false_eq_true, if_false]
          exact ⟨[], by simp, List.Sublist.cons p (List.nil_sublist rest), by simp, by simp⟩
        · simp only [if_true]
          exact hcombine _ rfl
      · rw [if_neg hbc]
        obtain ⟨extra, h1, h2, h3, h4⟩ := ih (idx + 1) (bc + 1) bd (step_photo env del idx p st)
        cases hp : env.pullOk idx
        · refine ⟨extra, ?_, List.Sublist.cons p h2, ?_, ?_⟩
          · rw [h1]
            simp [step_photo, hp]
          · rw [h3]
            simp [step_photo, hp]
          · rw [h4]
            simp [step_photo, hp]
        · refine ⟨p :: extra, ?_, List.Sublist.cons₂ p h2, ?_, ?_⟩
          · rw [h1]
            simp [step_photo, hp]
          · rw [h3]
            simp [step_photo, hp]
            omega
          · rw [h4]
            simp [step_photo, hp]
            omega
    · simp only [if_true]
      exact ⟨[], by simp, List.Sublist.cons p (List.nil_sublist rest), by simp, by simp⟩

/-- The loop leaves `total_files` and `total_size` unchanged. -/
theorem transfer_photos_totals (env : TransferEnv) (del : Bool) (bs : Nat) :
    ∀ (ps : List Photo) (idx bc bd : Nat) (st : RunState),
      (transfer_photos env del bs ps idx bc bd st).1.progress.total_files
          = st.progress.total_files ∧
      (transfer_photos env del bs ps idx bc bd st).1.progress.total_size
          = st.progress.total_size := by
  intro ps
  induction ps with
  | nil => intro idx bc bd st; exact ⟨rfl, rfl⟩
  | cons p rest ih =>
    intro idx bc bd st
    simp only [transfer_photos]
    cases hcc : env.cancelFlag idx
    · simp only [Bool.false_eq_true, if_false]
      have hstep := step_photo_const env del idx p st
      by_cases hbc : bs ≤ bc
      · rw [if_pos hbc]
        cases hvr : verify_and_reconnect env bd
        · simp only [Bool.false_eq_true, if_false]
          simp
        · simp only [if_true]
          have := ih (idx + 1) 1 (bd + 1) (step_photo env del idx p st)
          exact ⟨this.1.trans hstep.1, this.2.trans hstep.2.1⟩
      · rw [if_neg hbc]
        have := ih (idx + 1) (bc + 1) bd (step_photo env del idx p st)
        exact ⟨this.1.trans hstep.1, this.2.trans hstep.2.1⟩
    · exact ⟨rfl, rfl⟩

/-- The terminal-status assignment changes only `status` and
`error_message`. -/
theorem apply_terminal_fields (env : TransferEnv) (n : Nat) (r : RunState × Option String) :
    (apply_terminal env n r).local_photos = r.1.local_photos ∧
    (apply_terminal env n r).progress.completed_files = r.1.progress.completed_files ∧
    (apply_terminal env n r).progress.failed_files = r.1.progress.failed_files ∧
    (apply_terminal env n r).progress.transferred_size = r.1.progress.transferred_size ∧
    (apply_terminal env n r).progress.total_size = r.1.progress.total_size ∧
    (apply_terminal env n r).progress.total_files = r.1.progress.total_files ∧
    (apply_terminal env n r).deleted_src = r.1.deleted_src := by
  rcases r with ⟨st, e⟩
  cases e with
  | none =>
    simp only [apply_terminal]
    split <;> simp
  | some e => simp [apply_terminal]

/-- A loop that raised makes the task `failed` and records the detail. -/
theorem apply_terminal_err (env : TransferEnv) (n : Nat) (st : RunState) (e : String) :
    (apply_terminal env n (st, some e)).progress.status = TransferStatus.failed ∧
    (apply_terminal env n (st, some e)).progress.error_message = some e := by
  simp [apply_terminal]

/-- A clean loop exit without a pending cancellation completes the task. -/
theorem apply_terminal_ok (env : TransferEnv) (n : Nat) (st : RunState)
    (h : env.cancelFlag n = false) :
    (apply_terminal env n (st, none)).progress.status = TransferStatus.completed := by
  simp [apply_terminal, h]

/-- A clean loop exit with the cancellation flag set cancels the task. -/
theorem apply_terminal_cancel (env : TransferEnv) (n : Nat) (st : RunState)
    (h : env.cancelFlag n = true) :
    (apply_terminal env n (st, none)).progress.status = TransferStatus.cancelled := by
  simp [apply_terminal, h]

/-- When exactly the pull at index `k` fails, the succeeded count is one
less than the window that contains `k`. -/
theorem succeeded_length_single_failure (env : TransferEnv) (k : Nat)
    (hpull : ∀ i, env.pullOk i = decide (¬ i = k)) :
    ∀ (ps : List Photo) (idx : Nat),
      (succeeded env ps idx).length =
        if idx ≤ k ∧ k < idx + ps.length then ps.length - 1 else ps.length := by
  intro ps
  induction ps with
  | nil => intro idx; simp [succeeded]
  | cons p rest ih =>
    intro idx
    unfold succeeded
    rw [hpull idx]
    by_cases hik : idx = k
    · rw [if_neg (by simp [hik])]
      rw [ih (idx + 1)]
      simp only [List.length_cons]
      rw [if_neg (by omega)]
      rw [if_pos (by omega)]
      omega
    · rw [if_pos (by simp [hik])]
      simp only [List.length_cons]
      rw [ih (idx + 1)]
      by_cases hk2 : idx + 1 ≤ k ∧ k < idx + 1 + rest.length
      · rw [if_pos hk2, if_pos (by omega)]
        omega
      · rw [if_neg hk2, if_neg (by omega)]

/-! ## Claims -/

/-- C9: `progress_percent` returns 0 when `totalFiles` is 0 and
`(completedFiles / totalFiles) * 100` otherwise, and
`size_progress_percent` returns 0 when `totalBytes` is 0 (and the exact
ratio otherwise) — both zero cases are guarded before the division, so
reading the progress of an empty transfer task is safe. -/
theorem C9_percent_guard (p : TransferProgress) :
    (p.total_files = 0 → progress_percent p = 0) ∧
    (p.total_files ≠ 0 →
      progress_percent p = ((p.completed_files : Rat) / (p.total_files : Rat)) * 100) ∧
    (p.total_size = 0 → size_progress_percent p = 0) ∧
    (p.total_size ≠ 0 →
      size_progress_percent p = ((p.transferred_size : Rat) / (p.total_size : Rat)) * 100) := by
  refine ⟨fun h => ?_, fun h => ?_, fun h => ?_, fun h => ?_⟩ <;>
    simp [progress_percent, size_progress_percent, h]

/-- Witness for C9 at concrete progress values. -/
theorem C9_percent_guard_witness :
    progress_percent c9empty = 0 ∧ size_progress_percent c9empty = 0 ∧
    progress_percent c9quarter = 25 ∧ size_progress_percent c9quarter = 25 := by
  have h0 := C9_percent_guard c9empty
  have h4 := C9_percent_guard c9quarter
  refine ⟨h0.1 rfl, h0.2.2.1 rfl, ?_, ?_⟩
  · rw [h4.2.1 (by decide)]
    norm_num [c9quarter]
  · rw [h4.2.2.2 (by decide)]
    norm_num [c9quarter]

/-- C7: toggling a month flips only that month's `selected` flag, and
afterward the year's `selected` flag equals the conjunction of the
`selected` flags of all its months. -/
theorem C7_month_toggle (ys : YearStats) (m : Int)
    (hm : m ∈ ys.months.map (·.month)) :
    (toggle_month ys m).selected = (toggle_month ys m).months.all (·.selected) ∧
    (toggle_month ys m).months =
      ys.months.map (fun ms =>
        if ms.month = m then { ms with selected := !ms.selected } else ms) ∧
    (∀ ms ∈ ys.months, ms.month ≠ m → ms ∈ (toggle_month ys m).months) ∧
    (∀ ms ∈ ys.months, ms.month = m →
      { ms with selected := !ms.selected } ∈ (toggle_month ys m).months) ∧
    (toggle_month ys m).months.length = ys.months.length := by
  refine ⟨rfl, rfl, ?_, ?_, by simp [toggle_month]⟩
  · intro ms hms hne
    simp only [toggle_month, List.mem_map]
    exact ⟨ms, hms, by simp [hne]⟩
  · intro ms hms heq
    simp only [toggle_month, List.mem_map]
    exact ⟨ms, hms, by simp [heq]⟩

/-- Witness for C7 on a concrete year with a mixed selection. -/
theorem C7_month_toggle_witness :
    ((1 : Int) ∈ c7year.months.map (·.month)) ∧
    (toggle_month c7year 1).selected = (toggle_month c7year 1).months.all (·.selected) ∧
    (toggle_month c7year 1).months.length = c7year.months.length := by
  have h := C7_month_toggle c7year 1 (by decide)
  exact ⟨by decide, h.1, h.2.2.2.2⟩

/-- C8 counterexample: `c8year`'s months start uniformly all-true (with the
year flag clear), yet a double year toggle does not restore them — so
"restores exactly when the months started uniformly all-true or all-false"
fails in the "when" direction. -/
theorem C8_year_toggle_counterexample :
    (∀ ms ∈ c8year.months, ms.selected = true) ∧
    (toggle_year (toggle_year c8year)).months ≠ c8year.months := by
  decide

/-- C8 (amended): toggling a year sets its flag and propagates the same
value to every month unconditionally; a double toggle restores every
month's flag exactly when the months started uniformly equal to the year's
pre-toggle `selected` flag. -/
theorem C8_year_toggle_round_trip (ys : YearStats) :
    (toggle_year ys).selected = !ys.selected ∧
    (toggle_year ys).months = ys.months.map (fun ms => { ms with selected := !ys.selected }) ∧
    ((toggle_year (toggle_year ys)).months = ys.months ↔
      ∀ ms ∈ ys.months, ms.selected = ys.selected) := by
  refine ⟨rfl, rfl, ?_⟩
  have key : (toggle_year (toggle_year ys)).months =
      ys.months.map (fun ms => { ms with selected := ys.selected }) := by
    simp [toggle_year, List.map_map, Function.comp, Bool.not_not]
  rw [key]
  exact map_set_selected_eq_iff ys.months ys.selected

/-- Witness for the amended C8: a uniform year (months all-true, flag true)
round-trips. -/
theorem C8_year_toggle_round_trip_witness :
    (toggle_year c8year_uniform).selected = false ∧
    (toggle_year (toggle_year c8year_uniform)).months = c8year_uniform.months := by
  have h := C8_year_toggle_round_trip c8year_uniform
  exact ⟨by simpa using h.1, h.2.2.mpr (by decide)⟩

/-- C6: `get_selected_photos` returns the union over all years of all
assets of a selected year and, otherwise, the assets of its individually
selected months; consequently setting the year flag on a year whose months
are all selected does not change the result. -/
theorem C6_selected_union (pre post : List YearStats) (y : YearStats)
    (hm : ∀ ms ∈ y.months, ms.selected = true) :
    (∀ (stats : List YearStats) (q : Photo),
        q ∈ get_selected_photos stats ↔
          ∃ ys ∈ stats, ∃ ms ∈ ys.months,
            q ∈ ms.photos ∧ (ys.selected = true ∨ ms.selected = true)) ∧
    get_selected_photos (pre ++ { y with selected := true } :: post) =
      get_selected_photos (pre ++ { y with selected := false } :: post) := by
  constructor
  · intro stats q
    simp only [get_selected_photos, List.mem_flatMap]
    constructor
    · rintro ⟨ys, hys, hq⟩
      cases hsel : ys.selected with
      | true =>
        rw [hsel] at hq
        simp only [if_true, List.mem_flatMap] at hq
        obtain ⟨ms, hms, hqm⟩ := hq
        exact ⟨ys, hys, ms, hms, hqm, Or.inl hsel⟩
      | false =>
        rw [hsel] at hq
        simp only [Bool.false_eq_true, if_false, List.mem_flatMap, List.mem_filter] at hq
        obtain ⟨ms, ⟨hms, hmsel⟩, hqm⟩ := hq
        exact ⟨ys, hys, ms, hms, hqm, Or.inr hmsel⟩
    · rintro ⟨ys, hys, ms, hms, hqm, hor⟩
      refine ⟨ys, hys, ?_⟩
      cases hsel : ys.selected with
      | true =>
        have hq : q ∈ ys.months.flatMap (·.photos) := List.mem_flatMap.mpr ⟨ms, hms, hqm⟩
        simpa using hq
      | false =>
        have hmsel : ms.selected = true := by
          rcases hor with h | h
          · exact absurd h (by simp [hsel])
          · exact h
        have hq : q ∈ (ys.months.filter (·.selected)).flatMap (·.photos) :=
          List.mem_flatMap.mpr ⟨ms, List.mem_filter.mpr ⟨hms, hmsel⟩, hqm⟩
        simpa using hq
  · simp only [get_selected_photos, List.flatMap_append, List.flatMap_cons]
    have hfilter : (({ y with selected := false } : YearStats).months.filter (·.selected)) =
        y.months := List.filter_eq_self.mpr (fun a ha => hm a ha)
    simp [hfilter]

/-- Witness for C6: a year with every month selected yields the same
selection whether the year flag is set or not. -/
theorem C6_selected_union_witness :
    get_selected_photos [{ c6year with selected := true }] =
      get_selected_photos [{ c6year with selected := false }] ∧
    get_selected_photos [{ c6year with selected := true }] = [wphoto_a] := by
  have h := C6_selected_union [] [] c6year (by decide)
  exact ⟨by simpa using h.2, by decide⟩

/-- C1: for every input stat sequence, the sum of `MonthStats.total_size`
over all buckets of the aggregated inventory equals the sum of the sizes
of exactly those entries that carry a creation timestamp; an entry without
one never produces a `Photo` (so it is represented in no bucket), and each
such exclusion is counted by exactly one skip-log record. -/
theorem C1_aggregation (yearOf monthOf : Int → Int) (entries : List AfcEntry) :
    (((analyze_photos yearOf monthOf (build_photos entries).1).map
        (fun ys => (ys.months.map (·.total_size)).sum)).sum
      = ((entries.filter (fun e => e.st_birthtime.isSome)).map
          (fun e => e.st_size.getD 0)).sum) ∧
    (∀ e : AfcEntry, e.st_birthtime = none → create_photo_from_stat e = none) ∧
    ((build_photos entries).2.length
      = (entries.filter (fun e => e.st_birthtime.isNone)).length) := by
  refine ⟨?_, ?_, build_photos_skips entries⟩
  · rw [analyze_total_size, build_photos_sizes]
  · intro e he
    simp [create_photo_from_stat, he]

/-- Witness for C1 at a concrete entry list (one entry lacking a creation
timestamp). -/
theorem C1_aggregation_witness :
    (((analyze_photos c1yearOf c1monthOf (build_photos c1entries).1).map
        (fun ys => (ys.months.map (·.total_size)).sum)).sum = 7) ∧
    create_photo_from_stat { path := "/DCIM/100APPLE/IMG_0000.JPG", st_size := some 9 } = none ∧
    (build_photos c1entries).2.length = 1 := by
  have h := C1_aggregation c1yearOf c1monthOf c1entries
  exact ⟨h.1.trans (by decide), h.2.1 _ rfl, h.2.2.trans (by decide)⟩

/-- C2: a task in which exactly the pull of the photo at index `k`
(neither first nor last) fails, nothing cancels and every health check
verifies, finishes with `completed_files = N - 1`, `failed_files = 1` and
terminal status `completed` — the per-asset failure does not abort the
task. -/
theorem C2_single_pull_failure (env : TransferEnv) (photos : List Photo) (del : Bool)
    (bs k : Nat)
    (hc : ∀ i, env.cancelFlag i = false)
    (hv : ∀ b, env.verifyOk b = true)
    (hpull : ∀ i, env.pullOk i = decide (¬ i = k))
    (hk0 : 0 < k) (hkN : k + 1 < photos.length) :
    (transfer_worker env photos del bs).progress.completed_files = photos.length - 1 ∧
    (transfer_worker env photos del bs).progress.failed_files = 1 ∧
    (transfer_worker env photos del bs).progress.status = TransferStatus.completed := by
  have hrun := transfer_photos_run_all env del bs hc hv photos 0 0 0 (init_state photos)
  have hslen := succeeded_length_single_failure env k hpull photos 0
  rw [if_pos (by omega)] at hslen
  unfold transfer_worker
  rw [hrun]
  simp only [apply_terminal, hc photos.length, Bool.false_eq_true, if_false]
  refine ⟨?_, ?_, trivial⟩
  · rw [run_steps_completed env del photos 0 (init_state photos), hslen]
    simp [init_state]
  · rw [run_steps_failed env del photos 0 (init_state photos), hslen]
    simp only [init_state]
    omega

/-- Witness for C2: three photos, the middle pull fails. -/
theorem C2_single_pull_failure_witness :
    (transfer_worker c2env wphotos false 10).progress.completed_files = 2 ∧
    (transfer_worker c2env wphotos false 10).progress.failed_files = 1 ∧
    (transfer_worker c2env wphotos false 10).progress.status = TransferStatus.completed := by
  have h := C2_single_pull_failure c2env wphotos false 10 1
    (fun _ => rfl) (fun _ => rfl) (fun _ => rfl) (by decide) (by decide)
  exact ⟨h.1.trans (by decide), h.2.1, h.2.2⟩

/-- C3 counterexample: one photo whose pull succeeds and whose source
delete fails (delete-after-transfer enabled); the task ends `completed`
with `failed_files = 0` and `completed_files = 1` — the delete failure is
recovered and the task continues, but the asset is NOT counted as failed,
contradicting the claim that `failedFiles` is incremented. -/
theorem C3_delete_failure_counterexample :
    (transfer_worker c3env [wphoto_a] true 10).progress.failed_files = 0 ∧
    (transfer_worker c3env [wphoto_a] true 10).progress.completed_files = 1 ∧
    (transfer_worker c3env [wphoto_a] true 10).progress.status = TransferStatus.completed ∧
    (transfer_worker c3env [wphoto_a] true 10).deleted_src = [] := by
  decide

/-- C3 (amended): a `DeleteError` after a successful pull is recovered and
the task continues with the next asset, but the asset remains counted as
completed — `failed_files` counts pull failures only and no outcome of the
deletes affects status or counts; the source file is deleted only after a
successful transfer and only when the delete flag is set. -/
theorem C3_delete_failure_amended (env : TransferEnv) (photos : List Photo) (del : Bool)
    (bs : Nat)
    (hc : ∀ i, env.cancelFlag i = false)
    (hv : ∀ b, env.verifyOk b = true) :
    (transfer_worker env photos del bs).progress.status = TransferStatus.completed ∧
    (transfer_worker env photos del bs).progress.completed_files
        = (succeeded env photos 0).length ∧
    (transfer_worker env photos del bs).progress.failed_files
        = photos.length - (succeeded env photos 0).length ∧
    (del = false → (transfer_worker env photos del bs).deleted_src = []) ∧
    (∀ s ∈ (transfer_worker env photos del bs).deleted_src,
        ∃ p ∈ succeeded env photos 0, s = p.path) := by
  have hrun := transfer_photos_run_all env del bs hc hv photos 0 0 0 (init_state photos)
  unfold transfer_worker
  rw [hrun]
  simp only [apply_terminal, hc photos.length, Bool.false_eq_true, if_false]
  refine ⟨trivial, ?_, ?_, ?_, ?_⟩
  · rw [run_steps_completed env del photos 0 (init_state photos)]
    simp [init_state]
  · rw [run_steps_failed env del photos 0 (init_state photos)]
    simp [init_state]
  · intro hdel
    subst hdel
    rw [run_steps_no_delete env photos 0 (init_state photos)]
    simp [init_state]
  · intro s hs
    rcases run_steps_deleted_mem env del photos 0 (init_state photos) s hs with h | h
    · simp [init_state] at h
    · exact h

/-- Witness for the amended C3: pull succeeds, delete fails, task still
completes with the asset counted as completed and nothing deleted. -/
theorem C3_delete_failure_amended_witness :
    (transfer_worker c3env [wphoto_a] true 10).progress.status = TransferStatus.completed ∧
    (transfer_worker c3env [wphoto_a] true 10).progress.completed_files = 1 ∧
    (∀ s ∈ (transfer_worker c3env [wphoto_a] true 10).deleted_src,
        ∃ p ∈ succeeded c3env [wphoto_a] 0, s = p.path) := by
  have h := C3_delete_failure_amended c3env [wphoto_a] true 10 (fun _ => rfl) (fun _ => rfl)
  exact ⟨h.1, h.2.1.trans (by decide), h.2.2.2.2⟩

/-- C4: when every boundary health check before `j` verifies, boundary `j`
fails and its bounded recovery exhausts all attempts, the task terminates
`failed` with the disconnect detail, `completed_files` equal to the number
of pulls that succeeded among the `(j+1)*batchSize` photos processed
before the boundary, no further photos attempted, and every completed
transfer retained on local storage. -/
theorem C4_boundary_failure (env : TransferEnv) (photos : List Photo) (del : Bool)
    (bs j : Nat)
    (hc : ∀ i, env.cancelFlag i = false)
    (hbs : 0 < bs)
    (hvb : ∀ b, b < j → env.verifyOk b = true)
    (hvj : env.verifyOk j = false)
    (hrj : ∀ a, env.reconnectOk j a = false)
    (hlen : (j + 1) * bs < photos.length) :
    (transfer_worker env photos del bs).progress.status = TransferStatus.failed ∧
    (transfer_worker env photos del bs).progress.error_message
        = some "Device disconnected and could not reconnect" ∧
    (transfer_worker env photos del bs).progress.completed_files
        = (succeeded env (photos.take ((j + 1) * bs)) 0).length ∧
    (transfer_worker env photos del bs).progress.completed_files
        + (transfer_worker env photos del bs).progress.failed_files
        = (j + 1) * bs ∧
    (transfer_worker env photos del bs).local_photos
        = succeeded env (photos.take ((j + 1) * bs)) 0 := by
  have hvr := verify_and_reconnect_false env j hvj hrj
  have hfail := transfer_photos_fail_at env del bs j hc hbs hvb hvr photos 0 0 0
    (init_state photos) (by simp) (Nat.zero_le bs) (Nat.zero_le j) (by omega)
  simp only [Nat.sub_zero] at hfail
  have htklen : (photos.take ((j + 1) * bs)).length = (j + 1) * bs := by
    rw [List.length_take]
    omega
  have hsle := succeeded_length_le env (photos.take ((j + 1) * bs)) 0
  unfold transfer_worker
  rw [hfail]
  simp only [apply_terminal]
  refine ⟨trivial, trivial, ?_, ?_, ?_⟩
  · rw [run_steps_completed env del (photos.take ((j + 1) * bs)) 0 (init_state photos)]
    simp [init_state]
  · rw [run_steps_completed env del (photos.take ((j + 1) * bs)) 0 (init_state photos),
      run_steps_failed env del (photos.take ((j + 1) * bs)) 0 (init_state photos)]
    simp only [init_state]
    omega
  · rw [run_steps_local env del (photos.take ((j + 1) * bs)) 0 (init_state photos)]
    simp [init_state]

/-- Witness for C4: batch size 1, boundary 0 fails, recovery fails; one
photo transferred, then the task fails. -/
theorem C4_boundary_failure_witness :
    (transfer_worker c4env wphotos false 1).progress.status = TransferStatus.failed ∧
    (transfer_worker c4env wphotos false 1).progress.completed_files = 1 ∧
    (transfer_worker c4env wphotos false 1).progress.completed_files
        + (transfer_worker c4env wphotos false 1).progress.failed_files = 1 ∧
    (transfer_worker c4env wphotos false 1).local_photos.length = 1 := by
  have h := C4_boundary_failure c4env wphotos false 1 0
    (fun _ => rfl) (by decide) (fun b hb => absurd hb (Nat.not_lt_zero b)) rfl (fun _ => rfl)
    (by decide)
  refine ⟨h.1, h.2.2.1.trans (by decide), h.2.2.2.1.trans (by decide), ?_⟩
  rw [h.2.2.2.2]
  decide

/-- C5: the cancellation flag is polled once per photo at the top of the
loop; if the (monotone) flag is set by poll `k+1` — i.e. the cancel
request landed after photo `k+1` went in flight — then at most `k+1`
photos are attempted, `completed_files ≤ k+1`, and the task ends
`cancelled`, the remaining photos never attempted. -/
theorem C5_cancellation (env : TransferEnv) (photos : List Photo) (del : Bool)
    (bs k : Nat)
    (hmono : ∀ a b, a ≤ b → env.cancelFlag a = true → env.cancelFlag b = true)
    (hv : ∀ b, env.verifyOk b = true)
    (hk : env.cancelFlag (k + 1) = true)
    (hlen : k + 1 < photos.length) :
    (transfer_worker env photos del bs).progress.status = TransferStatus.cancelled ∧
    (transfer_worker env photos del bs).progress.completed_files
        + (transfer_worker env photos del bs).progress.failed_files ≤ k + 1 ∧
    (transfer_worker env photos del bs).progress.completed_files ≤ k + 1 := by
  have hnoerr : (transfer_photos env del bs photos 0 0 0 (init_state photos)).2 = none :=
    transfer_photos_no_error env del bs hv photos 0 0 0 (init_state photos)
  have hcount := transfer_photos_count_le env del bs hmono photos 0 0 0 (init_state photos)
    (k + 1) (Nat.zero_le _) hk
  have hcfn : env.cancelFlag photos.length = true :=
    hmono (k + 1) photos.length (by omega) hk
  have hpair : transfer_photos env del bs photos 0 0 0 (init_state photos)
      = ((transfer_photos env del bs photos 0 0 0 (init_state photos)).1, none) := by
    rw [← hnoerr]
  have hcount' : (transfer_photos env del bs photos 0 0 0 (init_state photos)).1.progress.completed_files
      + (transfer_photos env del bs photos 0 0 0 (init_state photos)).1.progress.failed_files
      ≤ k + 1 := by
    simpa [init_state] using hcount
  have hfields := apply_terminal_fields env photos.length
    ((transfer_photos env del bs photos 0 0 0 (init_state photos)).1, none)
  unfold transfer_worker
  rw [hpair]
  refine ⟨apply_terminal_cancel env photos.length _ hcfn, ?_, ?_⟩
  · have h1 : (apply_terminal env photos.length
        ((transfer_photos env del bs photos 0 0 0 (init_state photos)).1, none)).progress.completed_files
        = (transfer_photos env del bs photos 0 0 0 (init_state photos)).1.progress.completed_files :=
      hfields.2.1
    have h2 : (apply_terminal env photos.length
        ((transfer_photos env del bs photos 0 0 0 (init_state photos)).1, none)).progress.failed_files
        = (transfer_photos env del bs photos 0 0 0 (init_state photos)).1.progress.failed_files :=
      hfields.2.2.1
    rw [h1, h2]
    exact hcount'
  · have h1 : (apply_terminal env photos.length
        ((transfer_photos env del bs photos 0 0 0 (init_state photos)).1, none)).progress.completed_files
        = (transfer_photos env del bs photos 0 0 0 (init_state photos)).1.progress.completed_files :=
      hfields.2.1
    rw [h1]
    omega

/-- Witness for C5: the flag is set from poll 2 on; with three photos the
task is cancelled with at most two photos attempted. -/
theorem C5_cancellation_witness :
    (transfer_worker c5env wphotos false 10).progress.status = TransferStatus.cancelled ∧
    (transfer_worker c5env wphotos false 10).progress.completed_files ≤ 2 := by
  have h := C5_cancellation c5env wphotos false 10 1
    (by
      intro a b hab ha
      simp only [c5env, decide_eq_true_eq] at ha ⊢
      omega)
    (fun _ => rfl) rfl (by decide)
  exact ⟨h.1, h.2.2⟩

/-- C10: throughout every run (any pull/delete/cancel/health outcomes),
`transferred_size` equals the summed sizes of exactly the photos recorded
on local storage — incremented with `completed_files` on pull success, a
failed photo contributing to neither — and the locally stored photos are a
sublist of the task's photos, so `transferred_size` never exceeds
`total_size`. -/
theorem C10_transferred_invariant (env : TransferEnv) (photos : List Photo) (del : Bool)
    (bs : Nat) :
    (transfer_worker env photos del bs).progress.transferred_size
        = ((transfer_worker env photos del bs).local_photos.map (·.size)).sum ∧
    (transfer_worker env photos del bs).progress.completed_files
        = (transfer_worker env photos del bs).local_photos.length ∧
    (transfer_worker env photos del bs).local_photos.Sublist photos ∧
    (transfer_worker env photos del bs).progress.transferred_size
        ≤ (transfer_worker env photos del bs).progress.total_size := by
  obtain ⟨extra, h1, h2, h3, h4⟩ :=
    transfer_photos_invariant env del bs photos 0 0 0 (init_state photos)
  have htot := transfer_photos_totals env del bs photos 0 0 0 (init_state photos)
  have hfields := apply_terminal_fields env photos.length
    (transfer_photos env del bs photos 0 0 0 (init_state photos))
  have hlocal : (transfer_worker env photos del bs).local_photos = extra := by
    rw [transfer_worker, hfields.1, h1]
    simp [init_state]
  have htrans : (transfer_worker env photos del bs).progress.transferred_size
      = (extra.map (·.size)).sum := by
    rw [transfer_worker, hfields.2.2.2.1, h3]
    simp [init_state]
  have hcompleted : (transfer_worker env photos del bs).progress.completed_files
      = extra.length := by
    rw [transfer_worker, hfields.2.1, h4]
    simp [init_state]
  have htotsize : (transfer_worker env photos del bs).progress.total_size
      = (photos.map (·.size)).sum := by
    rw [transfer_worker, hfields.2.2.2.2.1, htot.2]
    simp [init_state]
  refine ⟨?_, ?_, ?_, ?_⟩
  · rw [htrans, hlocal]
  · rw [hcompleted, hlocal]
  · rw [hlocal]
    exact h2
  · rw [htrans, htotsize]
    exact List.Sublist.sum_le_sum (List.Sublist.map _ h2) (fun a _ => Nat.zero_le a)

end LocalBackup
